import Mathlib

/-!
Verification development for the KWIVER core feature-tracking orchestrator
(`arrows/core/track_features_core.cxx`, `track_features_core::track`).

The orchestrator is embedded shallowly:

* `Track`, `TrackState` and the track-set queries follow `vital::track` /
  `vital::track_set`, whose behaviour the specification fixes in sections
  4.1 and 4.2 (the class bodies themselves are outside the sampled tree,
  so those operations are modelled from the spec, as marked below).
* `trackCall` is a line-by-line translation of
  `track_features_core::track`.  The detector, extractor, matcher and
  loop-closure collaborators are opaque functions supplied through
  `Config`; features and descriptors are opaque tokens (`Nat`).
* Because the C++ mutates tracks in place through shared pointers, the
  embedding threads the list of tracks underlying the previous track set
  (the "heap") explicitly: `trackCall` returns both the post-call contents
  of the input track set and the returned track set.
-/

namespace TrackFeaturesCore

/-- One observation of a track at one frame: (frame id, feature,
descriptor).  Features and descriptors are opaque tokens. -/
structure TrackState where
  frame : Nat
  feat : Nat
  desc : Nat
deriving DecidableEq, Repr

/-- A track: a unique integer id plus the ordered list of its states. -/
structure Track where
  id : Nat
  states : List TrackState
deriving DecidableEq, Repr

/-- Frame of the last (most recent) state of a track, if any. -/
def Track.lastFrame? (t : Track) : Option Nat :=
  (t.states.getLast?).map (·.frame)

/-- Whether the track has a state at frame `f`. -/
def Track.hasFrame (t : Track) (f : Nat) : Bool :=
  t.states.any (fun s => s.frame == f)

/-- The state of the track at exactly frame `f`, or absent. -/
def Track.stateAt (t : Track) (f : Nat) : Option TrackState :=
  t.states.find? (fun s => s.frame == f)

/-- Modelled from the spec: `vital::track::append` (§4.1, the class body is
outside the sampled tree).  Succeeds and adds the state at the end iff its
frame is greater than the last state's frame; otherwise refuses without
mutating. -/
def Track.appendState (t : Track) (s : TrackState) : Option Track :=
  match t.states.getLast? with
  | none => some ⟨t.id, [s]⟩
  | some l => if l.frame < s.frame then some ⟨t.id, t.states ++ [s]⟩ else none

/-- Insert a state into a frame-ordered list of states, keeping order. -/
def insertOrdered : List TrackState → TrackState → List TrackState
  | [], s => [s]
  | x :: xs, s => if s.frame < x.frame then s :: x :: xs else x :: insertOrdered xs s

/-- Modelled from the spec: `vital::track::insert` (§4.1).  Succeeds iff no
existing state shares the new state's frame; places it in frame order. -/
def Track.insertState (t : Track) (s : TrackState) : Option Track :=
  if t.hasFrame s.frame then none else some ⟨t.id, insertOrdered t.states s⟩

/-- Modelled from the spec: `track_set::active_tracks` (§4.2) — the tracks
having a state at `f`, in set order.  Returned as positions into the list
of tracks, because the C++ set shares the track objects with the caller. -/
def activeIndices (ts : List Track) (f : Nat) : List Nat :=
  (List.range ts.length).filter (fun i => ((ts[i]?).map (fun t => t.hasFrame f)).getD false)

/-- The tracks active at frame `f`, in set order. -/
def activeTracksAt (ts : List Track) (f : Nat) : List Track :=
  ts.filter (fun t => t.hasFrame f)

/-- Modelled from the spec: `track_set::frame_features` (§4.2) — features
contributed at frame `f` by the active tracks, in active-track order. -/
def frameFeatures (ts : List Track) (f : Nat) : List Nat :=
  (activeTracksAt ts f).filterMap (fun t => (t.stateAt f).map (·.feat))

/-- Modelled from the spec: `track_set::frame_descriptors` (§4.2). -/
def frameDescriptors (ts : List Track) (f : Nat) : List Nat :=
  (activeTracksAt ts f).filterMap (fun t => (t.stateAt f).map (·.desc))

/-- The ids of the tracks of a set, in set order. -/
def trackIds (ts : List Track) : List Nat := ts.map (·.id)

/-- Maximum id of a non-empty track set (`*all_track_ids().crbegin()`);
`none` when the set is empty, where the source dereferences the reverse
iterator of an empty `std::set` (no defined result). -/
def maxTrackId? (ts : List Track) : Option Nat :=
  match ts with
  | [] => none
  | t :: rest => some (rest.foldl (fun a u => max a u.id) t.id)

/-- Next free track id, `max(all ids) + 1` (line 277 of the source). -/
def nextTrackId? (ts : List Track) : Option Nat :=
  (maxTrackId? ts).map (· + 1)

/-- Largest frame id appearing in a track's states (0 if none). -/
def Track.maxFrame (t : Track) : Nat :=
  (t.states.map (·.frame)).foldr max 0

/-- Modelled from the spec: `track_set::last_frame` (§4.2) — the maximum
frame id across all tracks (sentinel 0 on an empty set). -/
def lastFrame (ts : List Track) : Nat :=
  (ts.map Track.maxFrame).foldr max 0

/-- Anchor-frame selection (lines 279–296 of the source): start from the
global last frame; if processing out of order (`last_frame >= frame` and
`frame > 0`) and frame `frame - 1` has active tracks, prefer `frame - 1`. -/
def anchorFrame (ts : List Track) (f : Nat) : Nat :=
  if f ≤ lastFrame ts ∧ 0 < f ∧ (activeTracksAt ts (f - 1)) ≠ [] then f - 1
  else lastFrame ts

/-- An image: only its dimensions, allocated size and an opaque payload
(the pixel content seen by the collaborators) matter to the orchestrator. -/
structure Image where
  width : Nat
  height : Nat
  size : Nat
  payload : Nat
deriving DecidableEq, Repr

/-- The collaborator slots of `track_features_core::priv`: detector,
extractor, matcher and the optional loop closer, each an opaque function
(absent when not configured). -/
structure Config where
  detector : Option (Image → Option Image → List Nat)
  extractor : Option (Image → List Nat → Option Image → List Nat)
  matcher : Option (List Nat → List Nat → List Nat → List Nat → Option (List (Nat × Nat)))
  closer : Option (Nat → List Track → Image → Option Image → List Track)

/-- Errors surfaced by `track`: missing collaborator
(`algorithm_configuration_exception`), mask/image shape mismatch
(`image_size_mismatch_exception`), and the undefined dereference of
`crbegin()` on an empty id set at line 277, which has no defined result
in the source and is marked as an error in the embedding. -/
inductive TrackError where
  | notConfigured
  | dimMismatch
  | emptyTrackIds
deriving DecidableEq, Repr

/-- The mask shape check of lines 201–213: a supplied, non-empty mask whose
width or height differs from the image's. -/
def maskMismatch (img : Image) (mask : Option Image) : Bool :=
  match mask with
  | none => false
  | some m => decide (0 < m.size ∧ (img.width ≠ m.width ∨ img.height ≠ m.height))

/-- Step 1 of `track` (lines 215–244): reuse the features/descriptors of
tracks already active at the current frame when there are any, otherwise
detect features and extract descriptors on the current image. -/
def currObs (det : Image → Option Image → List Nat)
    (ext : Image → List Nat → Option Image → List Nat)
    (p? : Option (List Track)) (f : Nat) (img : Image) (mask : Option Image) :
    List Nat × List Nat :=
  let existing := match p? with
    | none => []
    | some p => activeTracksAt p f
  let cf := frameFeatures existing f
  let cd := frameDescriptors existing f
  let vf := if cf = [] then det img mask else cf
  let df := if cd = [] then ext img vf mask else cd
  (vf, df)

/-- First-frame case (lines 252–274): one singleton track per detected
feature, ids assigned sequentially from `i`, pairing features with
descriptors while both lists last. -/
def firstFrameTracks (f : Nat) : List Nat → List Nat → Nat → List Track
  | fe :: fs, de :: ds, i => ⟨i, [⟨f, fe, de⟩]⟩ :: firstFrameTracks f fs ds (i + 1)
  | _, _, _ => []

/-- Accumulator of the extend-mode loop (lines 337–347): the mutable list of
tracks shared with the previous track set, and the consumed current-frame
feature indices (the `matched` set). -/
structure ExtendAcc where
  heap : List Track
  matched : List Nat
deriving DecidableEq, Repr

/-- One iteration of the extend-mode loop: for match `m`, try to append,
then insert, the state (frame, feature `m.2`, descriptor `m.2`) onto the
anchor track at active position `m.1`; the index `m.2` is recorded as
consumed only when the append or insert succeeded.  The source indexes the
vectors without bounds checks; an out-of-range match leaves the
accumulator unchanged here. -/
def extendStep (f : Nat) (vf df : List Nat) (aIdx : List Nat)
    (acc : ExtendAcc) (m : Nat × Nat) : ExtendAcc :=
  match aIdx[m.1]?, vf[m.2]?, df[m.2]? with
  | some k, some fe, some de =>
    match acc.heap[k]? with
    | some t =>
      match t.appendState ⟨f, fe, de⟩ <|> t.insertState ⟨f, fe, de⟩ with
      | some t2 => ⟨acc.heap.set k t2, m.2 :: acc.matched⟩
      | none => acc
    | none => acc
  | _, _, _ => acc

/-- New singleton tracks for the unmatched current-frame indices
(lines 363–369), ids incrementing from `nid`. -/
def newTracksFrom (f : Nat) (vf df : List Nat) : Nat → List Nat → List Track
  | _, [] => []
  | nid, i :: rest =>
    ⟨nid, [⟨f, (vf[i]?).getD 0, (df[i]?).getD 0⟩]⟩ :: newTracksFrom f vf df (nid + 1) rest

/-- Modelled from the spec: transitive resolution of a replacement mapping
(§4.3 step 1; `merge_tracks.h` is outside the sampled tree).  Follows the
retired-to-surviving chain, with fuel bounding the walk. -/
def resolveId : Nat → List (Nat × Nat) → Nat → Nat
  | 0, _, x => x
  | fuel + 1, repl, x =>
    match repl.find? (fun pr => pr.1 == x) with
    | some pr => resolveId fuel repl pr.2
    | none => x

/-- Modelled from the spec: splice the retiring track's states into the
continuing track in frame order, skipping occupied frames
(first-writer-wins, §4.3 step 2). -/
def spliceStates (c r : Track) : Track :=
  r.states.foldl (fun t s => (t.insertState s).getD t) c

/-- Accumulator of the merge resolver: the track heap, the replacement
mapping (retired id, surviving id), and the count of applied requests. -/
structure MergeAcc where
  heap : List Track
  repl : List (Nat × Nat)
  count : Nat

/-- Modelled from the spec: one fusion request (continuing id, retiring id)
of the merge resolver (§4.3).  Both sides are transitively resolved;
self-merges are rejected as no-ops; otherwise the retiring track's states
are spliced into the continuing track and the retirement is recorded. -/
def mergeStep (acc : MergeAcc) (pr : Nat × Nat) : MergeAcc :=
  let c := resolveId (acc.repl.length + 1) acc.repl pr.1
  let r := resolveId (acc.repl.length + 1) acc.repl pr.2
  if c = r then acc
  else
    match acc.heap.find? (fun t => t.id == c), acc.heap.find? (fun t => t.id == r) with
    | some _, some tr =>
      ⟨acc.heap.map (fun t => if t.id = c then spliceStates t tr else t),
       (r, c) :: acc.repl, acc.count + 1⟩
    | _, _ => acc

/-- Modelled from the spec: `merge_tracks` over a batch of fusion
requests (§4.3). -/
def mergeTracks (heap : List Track) (pairs : List (Nat × Nat)) : MergeAcc :=
  pairs.foldl mergeStep ⟨heap, [], 0⟩

/-- Modelled from the spec: `remove_replaced_tracks` (§4.3 step 4) — drop
every retired track, keep all others. -/
def removeReplacedTracks (heap : List Track) (repl : List (Nat × Nat)) : List Track :=
  heap.filter (fun t => (repl.find? (fun pr => pr.1 == t.id)).isNone)

/-- Stitch-mode fusion requests (lines 320–327): for each match, pair the
existing current-frame track (continuing) with the matched anchor-frame
track (retiring), by id.  Out-of-range matches are skipped. -/
def stitchPairs (p : List Track) (aIdx exIdx : List Nat) (ms : List (Nat × Nat)) :
    List (Nat × Nat) :=
  ms.filterMap (fun m =>
    match (aIdx[m.1]?).bind (fun k => p[k]?), (exIdx[m.2]?).bind (fun k => p[k]?) with
    | some tp, some tc => some (tc.id, tp.id)
    | _, _ => none)

/-- Apply the optional loop-closure collaborator (lines 374–379). -/
def applyCloser (clo : Option (Nat → List Track → Image → Option Image → List Track))
    (f : Nat) (ts : List Track) (img : Image) (mask : Option Image) : List Track :=
  match clo with
  | some cl => cl f ts img mask
  | none => ts

/-- Extend mode (lines 336–371): per match, append-or-insert the current
state onto the matched anchor track, marking the current index consumed on
success; then create singleton tracks for the unconsumed indices.  Returns
the post-call contents of the previous set together with the new set. -/
def extendBranch (clo : Option (Nat → List Track → Image → Option Image → List Track))
    (f : Nat) (img : Image) (mask : Option Image) (vf df : List Nat)
    (aIdx : List Nat) (nid : Nat) (p : List Track) (ms : List (Nat × Nat)) :
    List Track × List Track :=
  let acc := ms.foldl (extendStep f vf df aIdx) ⟨p, []⟩
  let unmatched := (List.range vf.length).filter (fun i => !(acc.matched.contains i))
  (acc.heap, applyCloser clo f (acc.heap ++ newTracksFrom f vf df nid unmatched) img mask)

/-- Stitch mode (lines 318–334): fuse existing current-frame tracks with
their matched anchor tracks through the merge resolver, then drop the
retired tracks. -/
def stitchBranch (clo : Option (Nat → List Track → Image → Option Image → List Track))
    (f : Nat) (img : Image) (mask : Option Image)
    (p : List Track) (aIdx exIdx : List Nat) (ms : List (Nat × Nat)) :
    List Track × List Track :=
  let acc := mergeTracks p (stitchPairs p aIdx exIdx ms)
  (acc.heap, applyCloser clo f (removeReplacedTracks acc.heap acc.repl) img mask)

/-- The part of `track` handling a non-null previous track set
(lines 276–381): compute the next free id, select the anchor, match, and
run extend or stitch mode. -/
def trackWithPrev (mat : List Nat → List Nat → List Nat → List Nat → Option (List (Nat × Nat)))
    (clo : Option (Nat → List Track → Image → Option Image → List Track))
    (p : List Track) (f : Nat) (img : Image) (mask : Option Image)
    (vf df : List Nat) :
    Except TrackError (Option (List Track) × List Track) :=
  match nextTrackId? p with
  | none => .error .emptyTrackIds
  | some nid =>
    let anchor := anchorFrame p f
    let aIdx := activeIndices p anchor
    match mat (frameFeatures p anchor) (frameDescriptors p anchor) vf df with
    | none => .ok (some p, p)
    | some ms =>
      if activeIndices p f = [] then
        let pr := extendBranch clo f img mask vf df aIdx nid p ms
        .ok (some pr.1, pr.2)
      else
        let pr := stitchBranch clo f img mask p aIdx (activeIndices p f) ms
        .ok (some pr.1, pr.2)

/-- Shallow embedding of `track_features_core::track` (lines 186–382).
Returns the post-call contents of the input track set (first component —
the C++ shares the track objects, so in-place append/insert and splicing
are visible through the caller's handle) together with the returned track
set, or the error the call raises. -/
def trackCall (cfg : Config) (p? : Option (List Track)) (f : Nat)
    (img : Image) (mask : Option Image) :
    Except TrackError (Option (List Track) × List Track) :=
  match cfg.detector, cfg.extractor, cfg.matcher with
  | some det, some ext, some mat =>
    if maskMismatch img mask then .error .dimMismatch
    else
      let ob := currObs det ext p? f img mask
      match p? with
      | none =>
        .ok (none, applyCloser cfg.closer f (firstFrameTracks f ob.1 ob.2 0) img mask)
      | some p => trackWithPrev mat cfg.closer p f img mask ob.1 ob.2
  | _, _, _ => .error .notConfigured

/-- One call of a tracking session: a successful call replaces the state
with the returned track set; a failed call leaves it unchanged. -/
def runStep (cfg : Config) (st : Option (List Track))
    (c : Nat × Image × Option Image) : Option (List Track) :=
  match trackCall cfg st c.1 c.2.1 c.2.2 with
  | .ok pr => some pr.2
  | .error _ => st

/-- A session: a sequence of `track` calls starting from no prior track
set (the first-frame case). -/
def runCalls (cfg : Config) (cs : List (Nat × Image × Option Image)) :
    Option (List Track) :=
  cs.foldl (runStep cfg) none

/-! ### Lemmas about the track operations -/

theorem insertOrdered_sublist (l : List TrackState) (s : TrackState) :
    l.Sublist (insertOrdered l s) := by
  induction l with
  | nil => simp [insertOrdered]
  | cons x xs ih =>
    simp only [insertOrdered]
    split
    · exact List.Sublist.cons s (List.Sublist.refl (x :: xs))
    · exact List.Sublist.cons₂ x ih

theorem mem_insertOrdered_self (l : List TrackState) (s : TrackState) :
    s ∈ insertOrdered l s := by
  induction l with
  | nil => simp [insertOrdered]
  | cons x xs ih =>
    simp only [insertOrdered]
    split
    · exact List.mem_cons_self s (x :: xs)
    · exact List.mem_cons_of_mem x ih

theorem appendState_eq_some {t ta : Track} {s : TrackState}
    (h : t.appendState s = some ta) :
    (t.states = [] ∧ ta = ⟨t.id, [s]⟩) ∨ ta = ⟨t.id, t.states ++ [s]⟩ := by
  rcases hl : t.states.getLast? with _ | l
  · simp only [Track.appendState, hl] at h
    exact Or.inl ⟨List.getLast?_eq_none_iff.mp hl, (Option.some_inj.mp h).symm⟩
  · simp only [Track.appendState, hl] at h
    split at h
    · exact Or.inr (Option.some_inj.mp h).symm
    · exact absurd h (by simp)

theorem insertState_eq_some {t ta : Track} {s : TrackState}
    (h : t.insertState s = some ta) :
    t.hasFrame s.frame = false ∧ ta = ⟨t.id, insertOrdered t.states s⟩ := by
  unfold Track.insertState at h
  split at h
  · exact absurd h (by simp)
  · next hf => exact ⟨Bool.not_eq_true _ ▸ (by simpa using hf), (Option.some_inj.mp h).symm⟩

theorem appendOrInsert_grows {t t2 : Track} {s : TrackState}
    (h : (t.appendState s <|> t.insertState s) = some t2) :
    t2.id = t.id ∧ t.states.Sublist t2.states := by
  rcases ht : t.appendState s with _ | ta
  · rw [ht, Option.none_orElse] at h
    obtain ⟨-, rfl⟩ := insertState_eq_some h
    exact ⟨rfl, insertOrdered_sublist t.states s⟩
  · rw [ht, Option.some_orElse] at h
    obtain rfl := Option.some_inj.mp h
    rcases appendState_eq_some ht with ⟨he, rfl⟩ | rfl
    · exact ⟨rfl, by rw [he]; simp⟩
    · exact ⟨rfl, List.sublist_append_left t.states [s]⟩

theorem appendOrInsert_hasFrame {t t2 : Track} {s : TrackState}
    (h : (t.appendState s <|> t.insertState s) = some t2) :
    t2.hasFrame s.frame = true := by
  rcases ht : t.appendState s with _ | ta
  · rw [ht, Option.none_orElse] at h
    obtain ⟨-, rfl⟩ := insertState_eq_some h
    unfold Track.hasFrame
    rw [List.any_eq_true]
    exact ⟨s, mem_insertOrdered_self t.states s, by simp⟩
  · rw [ht, Option.some_orElse] at h
    obtain rfl := Option.some_inj.mp h
    rcases appendState_eq_some ht with ⟨-, rfl⟩ | rfl
    · unfold Track.hasFrame
      simp
    · unfold Track.hasFrame
      rw [List.any_eq_true]
      exact ⟨s, by simp, by simp⟩

theorem appendOrInsert_succeeds {t : Track} {s : TrackState}
    (h : t.hasFrame s.frame = false) :
    ∃ t2, (t.appendState s <|> t.insertState s) = some t2 := by
  rcases ht : t.appendState s with _ | ta
  · refine ⟨⟨t.id, insertOrdered t.states s⟩, ?_⟩
    rw [Option.none_orElse]
    unfold Track.insertState
    rw [h]
    simp
  · exact ⟨ta, by rw [Option.some_orElse]⟩

/-! ### Growth of the shared track heap

`HeapGrows p q` says that `q` is the same list of tracks as `p` except
that individual tracks may have gained states in place — the only way the
orchestrator touches the tracks shared with the previous track set. -/

structure HeapGrows (p q : List Track) : Prop where
  len : p.length = q.length
  pt : ∀ (k : Nat) (t t' : Track), p[k]? = some t → q[k]? = some t' →
    t.id = t'.id ∧ t.states.Sublist t'.states

theorem heapGrows_refl (p : List Track) : HeapGrows p p := by
  refine ⟨rfl, fun k t t' h h' => ?_⟩
  rw [h] at h'
  obtain rfl := Option.some_inj.mp h'
  exact ⟨rfl, List.Sublist.refl _⟩

theorem heapGrows_trans {p q r : List Track}
    (h1 : HeapGrows p q) (h2 : HeapGrows q r) : HeapGrows p r := by
  refine ⟨h1.len.trans h2.len, fun k t t' hp hr => ?_⟩
  have hk : k < p.length := (List.getElem?_eq_some.mp hp).1
  rcases hq : q[k]? with _ | u
  · rw [List.getElem?_eq_none_iff] at hq
    have := h1.len
    omega
  · obtain ⟨e1, s1⟩ := h1.pt k t u hp hq
    obtain ⟨e2, s2⟩ := h2.pt k u t' hq hr
    exact ⟨e1.trans e2, s1.trans s2⟩

theorem heapGrows_set {p q : List Track} {k : Nat} {t t2 : Track}
    (hg : HeapGrows p q) (hget : q[k]? = some t)
    (hid : t.id = t2.id) (hsub : t.states.Sublist t2.states) :
    HeapGrows p (q.set k t2) := by
  refine heapGrows_trans hg ⟨(List.length_set q k t2).symm, fun j u u' hq hs => ?_⟩
  by_cases hj : k = j
  · subst hj
    rw [List.getElem?_set_self', hget] at hs
    rw [hget] at hq
    obtain rfl := Option.some_inj.mp hq
    obtain rfl := Option.some_inj.mp hs
    exact ⟨hid, hsub⟩
  · rw [List.getElem?_set_ne hj] at hs
    rw [hq] at hs
    obtain rfl := Option.some_inj.mp hs
    exact ⟨rfl, List.Sublist.refl _⟩

theorem extendStep_grows {p : List Track} {f : Nat} {vf df aIdx : List Nat}
    {acc : ExtendAcc} (hg : HeapGrows p acc.heap) (m : Nat × Nat) :
    HeapGrows p (extendStep f vf df aIdx acc m).heap := by
  unfold extendStep
  split
  · split
    · split
      · next t t2 hop =>
        obtain ⟨hid, hsub⟩ := appendOrInsert_grows hop
        next hget => exact heapGrows_set hg hget hid.symm hsub
      · exact hg
    · exact hg
  · exact hg

theorem extendFold_grows {p : List Track} {f : Nat} {vf df aIdx : List Nat} :
    ∀ (ms : List (Nat × Nat)) (acc : ExtendAcc), HeapGrows p acc.heap →
      HeapGrows p (ms.foldl (extendStep f vf df aIdx) acc).heap := by
  intro ms
  induction ms with
  | nil => exact fun acc hg => hg
  | cons m rest ih =>
    intro acc hg
    exact ih (extendStep f vf df aIdx acc m) (extendStep_grows hg m)

theorem spliceStates_grows (c r : Track) :
    (spliceStates c r).id = c.id ∧ c.states.Sublist (spliceStates c r).states := by
  unfold spliceStates
  generalize r.states = rs
  induction rs generalizing c with
  | nil => exact ⟨rfl, List.Sublist.refl _⟩
  | cons s rest ih =>
    simp only [List.foldl_cons]
    rcases hi : c.insertState s with _ | c2
    · simpa [hi] using ih c
    · obtain ⟨-, rfl⟩ := insertState_eq_some hi
      simp only [hi, Option.getD_some]
      obtain ⟨hid, hsub⟩ := ih ⟨c.id, insertOrdered c.states s⟩
      exact ⟨hid, (insertOrdered_sublist c.states s).trans hsub⟩

theorem heapGrows_map {p q : List Track} (g : Track → Track)
    (hg : HeapGrows p q)
    (h : ∀ t, (g t).id = t.id ∧ t.states.Sublist (g t).states) :
    HeapGrows p (q.map g) := by
  refine heapGrows_trans hg ⟨(List.length_map q g).symm, fun k t t' hq hm => ?_⟩
  rw [List.getElem?_map, hq, Option.map_some'] at hm
  obtain rfl := Option.some_inj.mp hm
  exact ⟨(h t).1.symm, (h t).2⟩

theorem mergeStep_grows {p : List Track} {acc : MergeAcc}
    (hg : HeapGrows p acc.heap) (pr : Nat × Nat) :
    HeapGrows p (mergeStep acc pr).heap := by
  unfold mergeStep
  dsimp only
  split
  · exact hg
  · split
    · next x tr h1 h2 =>
      refine heapGrows_map _ hg fun t => ?_
      split
      · exact ⟨(spliceStates_grows t tr).1, (spliceStates_grows t tr).2⟩
      · exact ⟨rfl, List.Sublist.refl _⟩
    · exact hg

theorem mergeFold_grows {p : List Track} :
    ∀ (pairs : List (Nat × Nat)) (acc : MergeAcc), HeapGrows p acc.heap →
      HeapGrows p (pairs.foldl mergeStep acc).heap := by
  intro pairs
  induction pairs with
  | nil => exact fun acc hg => hg
  | cons pr rest ih => exact fun acc hg => ih (mergeStep acc pr) (mergeStep_grows hg pr)

theorem trackIds_eq_of_heapGrows {p q : List Track} (hg : HeapGrows p q) :
    trackIds p = trackIds q := by
  obtain ⟨hlen, hpt⟩ := hg
  apply List.ext_getElem?
  intro n
  unfold trackIds
  rw [List.getElem?_map, List.getElem?_map]
  rcases hp : p[n]? with _ | t
  · have hq : q[n]? = none := by
      rw [List.getElem?_eq_none_iff] at hp ⊢
      omega
    rw [hq]
  · have hn : n < q.length := hlen ▸ (List.getElem?_eq_some.mp hp).1
    rcases hq : q[n]? with _ | t'
    · rw [List.getElem?_eq_none_iff] at hq
      omega
    · simp only [Option.map_some']
      exact congrArg some (hpt n t t' hp hq).1

example : anchorFrame [⟨0, [⟨0, 1, 2⟩]⟩] 1 = 0 := by decide
example : anchorFrame [⟨0, [⟨1, 1, 2⟩, ⟨5, 1, 2⟩]⟩] 2 = 1 := by decide
example : (Track.appendState ⟨0, [⟨0, 1, 2⟩]⟩ ⟨0, 3, 4⟩) = none := by decide
example : (Track.insertState ⟨0, [⟨0, 1, 2⟩, ⟨5, 0, 0⟩]⟩ ⟨3, 7, 8⟩) =
    some ⟨0, [⟨0, 1, 2⟩, ⟨3, 7, 8⟩, ⟨5, 0, 0⟩]⟩ := by decide

/-! ### Lemmas about id allocation and singleton creation -/

theorem le_foldlMax (rest : List Track) (a : Nat) :
    a ≤ rest.foldl (fun x u => max x u.id) a := by
  induction rest generalizing a with
  | nil => exact Nat.le_refl a
  | cons u us ih => exact (Nat.le_max_left a u.id).trans (ih (max a u.id))

theorem mem_le_foldlMax {u : Track} {rest : List Track} (h : u ∈ rest) (a : Nat) :
    u.id ≤ rest.foldl (fun x v => max x v.id) a := by
  induction rest generalizing a with
  | nil => cases h
  | cons v vs ih =>
    rcases List.mem_cons.mp h with rfl | h2
    · exact (Nat.le_max_right a u.id).trans (le_foldlMax vs (max a u.id))
    · exact ih h2 (max a v.id)

theorem nextTrackId_gt {ts : List Track} (h : ts ≠ []) :
    ∃ n, nextTrackId? ts = some n ∧ ∀ t ∈ ts, t.id < n := by
  rcases ts with _ | ⟨t0, rest⟩
  · exact absurd rfl h
  · refine ⟨rest.foldl (fun a u => max a u.id) t0.id + 1, rfl, fun t ht => ?_⟩
    rcases List.mem_cons.mp ht with rfl | h2
    · exact Nat.lt_succ_of_le (le_foldlMax rest t.id)
    · exact Nat.lt_succ_of_le (mem_le_foldlMax h2 t0.id)

theorem newTracksFrom_map_id (f : Nat) (vf df : List Nat) :
    ∀ (idxs : List Nat) (nid : Nat),
      trackIds (newTracksFrom f vf df nid idxs) = List.range' nid idxs.length := by
  intro idxs
  induction idxs with
  | nil => intro nid; rfl
  | cons i rest ih =>
    intro nid
    simp only [newTracksFrom, trackIds, List.map_cons, List.length_cons, List.range']
    exact congrArg _ (ih (nid + 1))

theorem newTracksFrom_mem {f : Nat} {vf df : List Nat} :
    ∀ {idxs : List Nat} {nid : Nat} {t : Track}, t ∈ newTracksFrom f vf df nid idxs →
      ∃ i, i ∈ idxs ∧ t = ⟨t.id, [⟨f, (vf[i]?).getD 0, (df[i]?).getD 0⟩]⟩ := by
  intro idxs
  induction idxs with
  | nil => intro nid t h; cases h
  | cons i rest ih =>
    intro nid t h
    rcases List.mem_cons.mp h with rfl | h2
    · exact ⟨i, List.mem_cons_self i rest, rfl⟩
    · obtain ⟨j, hj, he⟩ := ih h2
      exact ⟨j, List.mem_cons_of_mem i hj, he⟩

theorem firstFrameTracks_map_id (f : Nat) :
    ∀ (vf df : List Nat) (i : Nat),
      trackIds (firstFrameTracks f vf df i) =
        List.range' i (firstFrameTracks f vf df i).length := by
  intro vf
  induction vf with
  | nil => intro df i; cases df <;> rfl
  | cons fe fs ih =>
    intro df i
    cases df with
    | nil => rfl
    | cons de ds =>
      simp only [firstFrameTracks, trackIds, List.map_cons, List.length_cons, List.range']
      exact congrArg _ (ih ds (i + 1))

theorem firstFrameTracks_length (f : Nat) :
    ∀ (vf df : List Nat) (i : Nat),
      (firstFrameTracks f vf df i).length = min vf.length df.length := by
  intro vf
  induction vf with
  | nil => intro df i; cases df <;> rfl
  | cons fe fs ih =>
    intro df i
    cases df with
    | nil => rfl
    | cons de ds =>
      simp only [firstFrameTracks, List.length_cons, ih ds (i + 1)]
      omega

theorem firstFrameTracks_mem (f : Nat) :
    ∀ {vf df : List Nat} {i : Nat} {t : Track}, t ∈ firstFrameTracks f vf df i →
      ∃ s, t.states = [s] ∧ s.frame = f := by
  intro vf
  induction vf with
  | nil => intro df i t h; cases df <;> cases h
  | cons fe fs ih =>
    intro df i t h
    cases df with
    | nil => cases h
    | cons de ds =>
      rcases List.mem_cons.mp h with rfl | h2
      · exact ⟨⟨f, fe, de⟩, rfl, rfl⟩
      · exact ih h2

theorem activeIndices_nil_iff {p : List Track} {f : Nat} :
    activeIndices p f = [] ↔ ∀ t ∈ p, t.hasFrame f = false := by
  unfold activeIndices
  rw [List.filter_eq_nil_iff]
  constructor
  · intro h t ht
    obtain ⟨i, hi⟩ := List.mem_iff_getElem?.mp ht
    have hilen : i < p.length := (List.getElem?_eq_some.mp hi).1
    have := h i (List.mem_range.mpr hilen)
    simp only [hi, Option.map_some', Option.getD_some] at this
    exact Bool.not_eq_true _ ▸ (by simpa using this)
  · intro h i hi
    have hilen : i < p.length := List.mem_range.mp hi
    rcases hp : p[i]? with _ | t
    · simp [hp]
    · have := h t (List.mem_iff_getElem?.mpr ⟨i, hp⟩)
      simp [hp, this]

/-! ### Concrete collaborators and inputs used in witnesses and counterexamples -/

/-- A small image for frame `f`; the payload is the token the detector sees. -/
def imgAt (f : Nat) : Image := ⟨4, 3, 12, 10 + f⟩

/-- Detector reporting one feature per frame, derived from the image payload. -/
def detA : Image → Option Image → List Nat := fun img _ => [img.payload]

/-- Extractor pairing each feature with a descriptor offset by 10. -/
def extA : Image → List Nat → Option Image → List Nat := fun _ fs _ => fs.map (· + 10)

/-- Matcher that always fails (returns absent). -/
def matAbsent : List Nat → List Nat → List Nat → List Nat → Option (List (Nat × Nat)) :=
  fun _ _ _ _ => none

/-- Matcher that always pairs feature 0 with feature 0. -/
def matPair : List Nat → List Nat → List Nat → List Nat → Option (List (Nat × Nat)) :=
  fun _ _ _ _ => some [(0, 0)]

/-- Matcher that matches anchor feature 0 against both current features. -/
def matDup : List Nat → List Nat → List Nat → List Nat → Option (List (Nat × Nat)) :=
  fun _ _ _ _ => some [(0, 0), (0, 1)]

/-- Matcher pairing (0, 0) exactly when the current frame carries feature 13,
and returning an empty (but present) match set otherwise. -/
def matOn13 : List Nat → List Nat → List Nat → List Nat → Option (List (Nat × Nat)) :=
  fun _ _ fb _ => if fb == [13] then some [(0, 0)] else some []

/-- Detector reporting two features. -/
def detB : Image → Option Image → List Nat := fun _ _ => [101, 102]

/-- Extractor with offset 50. -/
def extB : Image → List Nat → Option Image → List Nat := fun _ fs _ => fs.map (· + 50)

/-- A previous track set with one track (id 0) observed at frame 0. -/
def pB : List Track := [⟨0, [⟨0, 100, 150⟩]⟩]

/-- The call sequence of the id-reuse scenario: frames 0, 3, 5, then frame 3
again (stitching), then frame 7. -/
def calls5 : List (Nat × Image × Option Image) :=
  [(0, imgAt 0, none), (3, imgAt 3, none), (5, imgAt 5, none),
   (3, imgAt 3, none), (7, imgAt 7, none)]

/-! ### Claim theorems -/

/-- C7: every call to `track` raises the configuration error when the
detector, extractor, or matcher collaborator is absent; the check precedes
everything else, so the error is returned for all inputs unconditionally
and no other effect is observable. -/
theorem c7_config_error (cfg : Config) (p? : Option (List Track)) (f : Nat)
    (img : Image) (mask : Option Image)
    (h : cfg.detector = none ∨ cfg.extractor = none ∨ cfg.matcher = none) :
    trackCall cfg p? f img mask = .error .notConfigured := by
  obtain ⟨d, e, m, c⟩ := cfg
  rcases d with _ | d
  · cases e <;> cases m <;> rfl
  · rcases e with _ | e
    · cases m <;> rfl
    · rcases m with _ | m
      · rfl
      · simp at h

/-- Witness for C7 at a concrete unconfigured instance. -/
theorem c7_config_error_witness :
    trackCall ⟨none, none, none, none⟩ none 0 (imgAt 0) none = .error .notConfigured :=
  c7_config_error ⟨none, none, none, none⟩ none 0 (imgAt 0) none (Or.inl rfl)

theorem maskMismatch_true_iff {img : Image} {mask : Option Image} :
    maskMismatch img mask = true ↔
      ∃ m, mask = some m ∧ 0 < m.size ∧ (img.width ≠ m.width ∨ img.height ≠ m.height) := by
  cases mask <;> simp [maskMismatch]

theorem trackWithPrev_ne_dim (mat : List Nat → List Nat → List Nat → List Nat → Option (List (Nat × Nat)))
    (clo : Option (Nat → List Track → Image → Option Image → List Track))
    (p : List Track) (f : Nat) (img : Image) (mask : Option Image) (vf df : List Nat) :
    trackWithPrev mat clo p f img mask vf df ≠ .error .dimMismatch := by
  unfold trackWithPrev
  split
  · simp
  · dsimp only
    split
    · simp
    · split <;> simp

/-- C8: with all collaborators configured, the call fails with the
dimension-mismatch error exactly when a non-empty mask is supplied whose
width or height differs from the image's; no other input produces this
error. -/
theorem c8_dim_error (det : Image → Option Image → List Nat)
    (ext : Image → List Nat → Option Image → List Nat)
    (mat : List Nat → List Nat → List Nat → List Nat → Option (List (Nat × Nat)))
    (clo : Option (Nat → List Track → Image → Option Image → List Track))
    (p? : Option (List Track)) (f : Nat) (img : Image) (mask : Option Image) :
    trackCall ⟨some det, some ext, some mat, clo⟩ p? f img mask = .error .dimMismatch ↔
      ∃ m, mask = some m ∧ 0 < m.size ∧ (img.width ≠ m.width ∨ img.height ≠ m.height) := by
  rw [← maskMismatch_true_iff]
  unfold trackCall
  rcases hm : maskMismatch img mask with _ | _
  · simp only [Bool.false_eq_true, if_false]
    constructor
    · intro h
      rcases p? with _ | p
      · exact absurd h (by simp)
      · exact absurd h (trackWithPrev_ne_dim mat clo p f img mask _ _)
    · intro h
      cases h
  · simp

/-- C3: with a non-empty previous track set and a matcher returning absent
on the anchor/current observations, the call returns the previous track
set itself, unmodified, and raises no error. -/
theorem c3_match_failure_noop (det : Image → Option Image → List Nat)
    (ext : Image → List Nat → Option Image → List Nat)
    (mat : List Nat → List Nat → List Nat → List Nat → Option (List (Nat × Nat)))
    (clo : Option (Nat → List Track → Image → Option Image → List Track))
    (p : List Track) (f : Nat) (img : Image) (mask : Option Image)
    (hp : p ≠ [])
    (hm : maskMismatch img mask = false)
    (hmat : mat (frameFeatures p (anchorFrame p f)) (frameDescriptors p (anchorFrame p f))
        (currObs det ext (some p) f img mask).1 (currObs det ext (some p) f img mask).2 = none) :
    trackCall ⟨some det, some ext, some mat, clo⟩ (some p) f img mask = .ok (some p, p) := by
  obtain ⟨n, hn, -⟩ := nextTrackId_gt hp
  unfold trackCall
  rw [hm]
  simp only [Bool.false_eq_true, if_false]
  unfold trackWithPrev
  rw [hn]
  dsimp only
  rw [hmat]

/-- Witness for C3: the always-absent matcher leaves a one-track set
untouched. -/
theorem c3_match_failure_noop_witness :
    trackCall ⟨some detB, some extB, some matAbsent, none⟩ (some pB) 1 (imgAt 1) none =
      .ok (some pB, pB) :=
  c3_match_failure_noop detB extB matAbsent none pB 1 (imgAt 1) none
    (by decide) rfl rfl

/-- C9 (recording the divergence): the next free id is `max(ids) + 1` on a
non-empty set, but on an empty previous track set the source dereferences
`crbegin()` of an empty `std::set` — in the embedding the id computation
has no defined value and the call is marked with the `emptyTrackIds`
error, not a clean failure or 0. -/
theorem c9_next_id_empty_undefined :
    nextTrackId? [] = none ∧
    trackCall ⟨some detA, some extA, some matAbsent, none⟩ (some []) 1 (imgAt 1) none =
      .error .emptyTrackIds ∧
    nextTrackId? [⟨3, []⟩, ⟨7, []⟩] = some 8 :=
  ⟨rfl, rfl, rfl⟩

/-- C6 (counterexample): on a set whose last frame is 0, a call for frame 1
uses anchor 0 = frame − 1 even though the claimed conditions (frame not
beyond the last frame, and active tracks on frame − 1) fail — so "anchor =
frame − 1 iff the conditions hold" is false as stated. -/
theorem c6_counterexample :
    anchorFrame [⟨0, [⟨0, 1, 2⟩]⟩] 1 = 1 - 1 ∧
    ¬(1 ≤ lastFrame [⟨0, [⟨0, 1, 2⟩]⟩] ∧ 0 < 1 ∧
      activeTracksAt [⟨0, [⟨0, 1, 2⟩]⟩] 0 ≠ []) := by decide

/-- C6 (amended): the anchor is frame − 1 when the current frame does not
exceed the last frame, the frame is positive and frame − 1 has active
tracks; in every other case the anchor is the global last frame (which can
itself coincide with frame − 1). -/
theorem c6_anchor_selection (p : List Track) (f : Nat) :
    (f ≤ lastFrame p ∧ 0 < f ∧ activeTracksAt p (f - 1) ≠ [] → anchorFrame p f = f - 1) ∧
    (¬(f ≤ lastFrame p ∧ 0 < f ∧ activeTracksAt p (f - 1) ≠ []) →
      anchorFrame p f = lastFrame p) := by
  constructor <;> intro h <;> unfold anchorFrame
  · rw [if_pos h]
  · rw [if_neg h]

/-- Witness for C6 (amended) at a concrete out-of-order call. -/
theorem c6_anchor_selection_witness :
    anchorFrame [⟨0, [⟨1, 1, 2⟩, ⟨5, 1, 2⟩]⟩] 2 = 2 - 1 :=
  (c6_anchor_selection [⟨0, [⟨1, 1, 2⟩, ⟨5, 1, 2⟩]⟩] 2).1 (by decide)

/-- Observation step on a first call: detect then extract. -/
theorem currObs_none (det : Image → Option Image → List Nat)
    (ext : Image → List Nat → Option Image → List Nat)
    (f : Nat) (img : Image) (mask : Option Image) {vf df : List Nat}
    (hdet : det img mask = vf) (hext : ext img vf mask = df) :
    currObs det ext none f img mask = (vf, df) := by
  show (det img mask, ext img (det img mask) mask) = (vf, df)
  rw [hdet, hext]

/-- C4: a first call (no previous track set, no loop closer) with N detected
features and 1:1 descriptors yields exactly N singleton tracks at the
given frame, with ids 0..N−1 in detection order. -/
theorem c4_first_frame (det : Image → Option Image → List Nat)
    (ext : Image → List Nat → Option Image → List Nat)
    (mat : List Nat → List Nat → List Nat → List Nat → Option (List (Nat × Nat)))
    (f : Nat) (img : Image) (mask : Option Image) (vf df : List Nat)
    (hm : maskMismatch img mask = false)
    (hdet : det img mask = vf)
    (hext : ext img vf mask = df)
    (hlen : df.length = vf.length) :
    ∃ r, trackCall ⟨some det, some ext, some mat, none⟩ none f img mask = .ok (none, r) ∧
      trackIds r = List.range vf.length ∧
      ∀ t ∈ r, ∃ s, t.states = [s] ∧ s.frame = f := by
  refine ⟨firstFrameTracks f vf df 0, ?_, ?_, fun t ht => firstFrameTracks_mem f ht⟩
  · unfold trackCall
    rw [hm]
    simp only [Bool.false_eq_true, if_false]
    rw [currObs_none det ext f img mask hdet hext]
    rfl
  · rw [firstFrameTracks_map_id, firstFrameTracks_length, hlen, Nat.min_self,
      List.range_eq_range']

/-- Witness for C4 with two detected features. -/
theorem c4_first_frame_witness :
    ∃ r, trackCall ⟨some (fun _ _ => [5, 6]), some (fun _ fs _ => fs), some matAbsent, none⟩
        none 2 (imgAt 2) none = .ok (none, r) ∧
      trackIds r = List.range 2 ∧
      ∀ t ∈ r, ∃ s, t.states = [s] ∧ s.frame = 2 :=
  c4_first_frame (fun _ _ => [5, 6]) (fun _ fs _ => fs) matAbsent 2 (imgAt 2) none
    [5, 6] [5, 6] rfl rfl rfl rfl

/-! ### Branch equations for a call with a previous track set -/

theorem trackCall_extend_eq (det : Image → Option Image → List Nat)
    (ext : Image → List Nat → Option Image → List Nat)
    (mat : List Nat → List Nat → List Nat → List Nat → Option (List (Nat × Nat)))
    (clo : Option (Nat → List Track → Image → Option Image → List Track))
    (p : List Track) (f : Nat) (img : Image) (mask : Option Image)
    (nid : Nat) (ms : List (Nat × Nat))
    (hm : maskMismatch img mask = false)
    (hn : nextTrackId? p = some nid)
    (hmat : mat (frameFeatures p (anchorFrame p f)) (frameDescriptors p (anchorFrame p f))
        (currObs det ext (some p) f img mask).1 (currObs det ext (some p) f img mask).2 = some ms)
    (hex : activeIndices p f = []) :
    trackCall ⟨some det, some ext, some mat, clo⟩ (some p) f img mask =
      .ok (some (extendBranch clo f img mask (currObs det ext (some p) f img mask).1
              (currObs det ext (some p) f img mask).2
              (activeIndices p (anchorFrame p f)) nid p ms).1,
           (extendBranch clo f img mask (currObs det ext (some p) f img mask).1
              (currObs det ext (some p) f img mask).2
              (activeIndices p (anchorFrame p f)) nid p ms).2) := by
  unfold trackCall
  rw [hm]
  simp only [Bool.false_eq_true, if_false]
  unfold trackWithPrev
  rw [hn]
  dsimp only
  rw [hmat]
  dsimp only
  rw [if_pos hex]

theorem trackCall_stitch_eq (det : Image → Option Image → List Nat)
    (ext : Image → List Nat → Option Image → List Nat)
    (mat : List Nat → List Nat → List Nat → List Nat → Option (List (Nat × Nat)))
    (clo : Option (Nat → List Track → Image → Option Image → List Track))
    (p : List Track) (f : Nat) (img : Image) (mask : Option Image)
    (nid : Nat) (ms : List (Nat × Nat))
    (hm : maskMismatch img mask = false)
    (hn : nextTrackId? p = some nid)
    (hmat : mat (frameFeatures p (anchorFrame p f)) (frameDescriptors p (anchorFrame p f))
        (currObs det ext (some p) f img mask).1 (currObs det ext (some p) f img mask).2 = some ms)
    (hex : activeIndices p f ≠ []) :
    trackCall ⟨some det, some ext, some mat, clo⟩ (some p) f img mask =
      .ok (some (stitchBranch clo f img mask p (activeIndices p (anchorFrame p f))
              (activeIndices p f) ms).1,
           (stitchBranch clo f img mask p (activeIndices p (anchorFrame p f))
              (activeIndices p f) ms).2) := by
  unfold trackCall
  rw [hm]
  simp only [Bool.false_eq_true, if_false]
  unfold trackWithPrev
  rw [hn]
  dsimp only
  rw [hmat]
  dsimp only
  rw [if_neg hex]

/-- Any successful call with a previous track set leaves the input set's
track list grown in place (same positions and ids, dilated states). -/
theorem heapGrows_of_trackCall {det : Image → Option Image → List Nat}
    {ext : Image → List Nat → Option Image → List Nat}
    {mat : List Nat → List Nat → List Nat → List Nat → Option (List (Nat × Nat))}
    {clo : Option (Nat → List Track → Image → Option Image → List Track)}
    {p : List Track} {f : Nat} {img : Image} {mask : Option Image}
    {pa : List Track} {r : List Track}
    (h : trackCall ⟨some det, some ext, some mat, clo⟩ (some p) f img mask =
      .ok (some pa, r)) :
    HeapGrows p pa := by
  rcases hm : maskMismatch img mask with _ | _
  · rcases hn : nextTrackId? p with _ | nid
    · rw [trackCall] at h
      rw [hm] at h
      simp only [Bool.false_eq_true, if_false] at h
      rw [trackWithPrev, hn] at h
      exact absurd h (by simp)
    · rcases hmat : mat (frameFeatures p (anchorFrame p f))
          (frameDescriptors p (anchorFrame p f))
          (currObs det ext (some p) f img mask).1
          (currObs det ext (some p) f img mask).2 with _ | ms
      · rw [trackCall] at h
        rw [hm] at h
        simp only [Bool.false_eq_true, if_false] at h
        rw [trackWithPrev, hn] at h
        dsimp only at h
        rw [hmat] at h
        simp only [Except.ok.injEq, Prod.mk.injEq, Option.some.injEq] at h
        rw [← h.1]
        exact heapGrows_refl p
      · by_cases hex : activeIndices p f = []
        · rw [trackCall_extend_eq det ext mat clo p f img mask nid ms hm hn hmat hex] at h
          simp only [Except.ok.injEq, Prod.mk.injEq, Option.some.injEq] at h
          rw [← h.1]
          exact extendFold_grows ms ⟨p, []⟩ (heapGrows_refl p)
        · rw [trackCall_stitch_eq det ext mat clo p f img mask nid ms hm hn hmat hex] at h
          simp only [Except.ok.injEq, Prod.mk.injEq, Option.some.injEq] at h
          rw [← h.1]
          exact mergeFold_grows _ ⟨p, [], 0⟩ (heapGrows_refl p)
  · rw [trackCall] at h
    rw [hm] at h
    exact absurd h (by simp)

/-- C2 (counterexample): an extend-mode call appends a frame-1 state onto
track 0 of the input set in place — after the call the input track set's
contents differ from its pre-call value. -/
theorem c2_counterexample :
    trackCall ⟨some detB, some extB, some matPair, none⟩ (some pB) 1 (imgAt 1) none =
      .ok (some [⟨0, [⟨0, 100, 150⟩, ⟨1, 101, 151⟩]⟩],
           [⟨0, [⟨0, 100, 150⟩, ⟨1, 101, 151⟩]⟩, ⟨1, [⟨1, 102, 152⟩]⟩]) ∧
    [⟨0, [⟨0, 100, 150⟩, ⟨1, 101, 151⟩]⟩] ≠ pB :=
  ⟨rfl, by decide⟩

/-- C2 (amended): a successful call never adds, removes or reorders the
input set's tracks and never changes their ids, but it may grow individual
tracks in place (extend-mode append/insert, stitch-mode splicing), so the
input set is not in general structurally identical after the call. -/
theorem c2_input_set_growth (det : Image → Option Image → List Nat)
    (ext : Image → List Nat → Option Image → List Nat)
    (mat : List Nat → List Nat → List Nat → List Nat → Option (List (Nat × Nat)))
    (clo : Option (Nat → List Track → Image → Option Image → List Track))
    (p : List Track) (f : Nat) (img : Image) (mask : Option Image)
    (pa r : List Track)
    (h : trackCall ⟨some det, some ext, some mat, clo⟩ (some p) f img mask =
      .ok (some pa, r)) :
    trackIds pa = trackIds p ∧
    ∀ (k : Nat) (t t' : Track), p[k]? = some t → pa[k]? = some t' →
      t.states.Sublist t'.states := by
  have hg := heapGrows_of_trackCall h
  exact ⟨(trackIds_eq_of_heapGrows hg).symm,
    fun k t t' hp hpa => (hg.pt k t t' hp hpa).2⟩

/-- Witness for C2 (amended) at the counterexample input. -/
theorem c2_input_set_growth_witness :
    trackIds [⟨0, [⟨0, 100, 150⟩, ⟨1, 101, 151⟩]⟩] = trackIds pB ∧
    ∀ (k : Nat) (t t' : Track), pB[k]? = some t →
      [Track.mk 0 [⟨0, 100, 150⟩, ⟨1, 101, 151⟩]][k]? = some t' →
      t.states.Sublist t'.states :=
  c2_input_set_growth detB extB matPair none pB 1 (imgAt 1) none
    [⟨0, [⟨0, 100, 150⟩, ⟨1, 101, 151⟩]⟩]
    [⟨0, [⟨0, 100, 150⟩, ⟨1, 101, 151⟩]⟩, ⟨1, [⟨1, 102, 152⟩]⟩] rfl

theorem nextTrackId_lt {p : List Track} {n : Nat} (h : nextTrackId? p = some n) :
    ∀ t ∈ p, t.id < n := by
  rcases p with _ | ⟨t0, rest⟩
  · intro t ht
    cases ht
  · obtain ⟨n2, hn2, hlt⟩ := nextTrackId_gt (List.cons_ne_nil t0 rest)
    rw [h] at hn2
    obtain rfl := Option.some_inj.mp hn2
    exact hlt

/-- C10: in stitch mode (existing tracks on the current frame, matching
succeeded, no loop closer) the call creates no tracks — every id of the
returned set already names a track of the input set. -/
theorem c10_stitch_no_new_tracks (det : Image → Option Image → List Nat)
    (ext : Image → List Nat → Option Image → List Nat)
    (mat : List Nat → List Nat → List Nat → List Nat → Option (List (Nat × Nat)))
    (p : List Track) (f : Nat) (img : Image) (mask : Option Image)
    (nid : Nat) (ms : List (Nat × Nat))
    (hm : maskMismatch img mask = false)
    (hn : nextTrackId? p = some nid)
    (hmat : mat (frameFeatures p (anchorFrame p f)) (frameDescriptors p (anchorFrame p f))
        (currObs det ext (some p) f img mask).1 (currObs det ext (some p) f img mask).2 = some ms)
    (hex : activeIndices p f ≠ []) :
    ∃ pa r, trackCall ⟨some det, some ext, some mat, none⟩ (some p) f img mask =
        .ok (some pa, r) ∧ ∀ t ∈ r, t.id ∈ trackIds p := by
  refine ⟨_, _, trackCall_stitch_eq det ext mat none p f img mask nid ms hm hn hmat hex,
    fun t ht => ?_⟩
  have h1 : t ∈ (mergeTracks p (stitchPairs p (activeIndices p (anchorFrame p f))
      (activeIndices p f) ms)).heap := List.mem_of_mem_filter ht
  have h2 : trackIds p = trackIds (mergeTracks p (stitchPairs p
      (activeIndices p (anchorFrame p f)) (activeIndices p f) ms)).heap :=
    trackIds_eq_of_heapGrows (mergeFold_grows _ ⟨p, [], 0⟩ (heapGrows_refl p))
  rw [h2]
  exact List.mem_map_of_mem _ h1

/-- The intermediate state of the id-reuse scenario after frames 0, 3, 5. -/
def s3 : List Track := [⟨0, [⟨0, 10, 20⟩, ⟨3, 13, 23⟩]⟩, ⟨1, [⟨5, 15, 25⟩]⟩]

/-- Witness for C10 at a concrete re-tracked frame. -/
theorem c10_stitch_no_new_tracks_witness :
    ∃ pa r, trackCall ⟨some detA, some extA, some matOn13, none⟩ (some s3) 3
        (imgAt 3) none = .ok (some pa, r) ∧ ∀ t ∈ r, t.id ∈ trackIds s3 :=
  c10_stitch_no_new_tracks detA extA matOn13 s3 3 (imgAt 3) none 2 [(0, 0)]
    rfl rfl rfl (by decide)

/-- Distinct ids are preserved by the extend branch: the untouched-or-grown
input tracks keep their ids, and the new singleton tracks receive the
fresh ids `nid`, `nid + 1`, …, all above every existing id. -/
theorem nodup_extendBranch {p : List Track} {f : Nat} {img : Image}
    {mask : Option Image} {vf df aIdx : List Nat} {nid : Nat} {ms : List (Nat × Nat)}
    (hnd : (trackIds p).Nodup) (hlt : ∀ t ∈ p, t.id < nid) :
    (trackIds (extendBranch none f img mask vf df aIdx nid p ms).2).Nodup := by
  have hg := @extendFold_grows p f vf df aIdx ms ⟨p, []⟩ (heapGrows_refl p)
  have hids := trackIds_eq_of_heapGrows hg
  have e1 : trackIds (extendBranch none f img mask vf df aIdx nid p ms).2 =
      trackIds (List.foldl (extendStep f vf df aIdx) ⟨p, []⟩ ms).heap ++
        trackIds (newTracksFrom f vf df nid ((List.range vf.length).filter
          (fun i => !(((List.foldl (extendStep f vf df aIdx)
            ⟨p, []⟩ ms).matched).contains i)))) := List.map_append _ _ _
  rw [e1]
  refine List.Nodup.append (hids ▸ hnd) ?_ ?_
  · rw [newTracksFrom_map_id]
    exact List.nodup_range' _ _
  · intro x hx1 hx2
    rw [newTracksFrom_map_id] at hx2
    rw [← hids] at hx1
    obtain ⟨t, ht, rfl⟩ := List.mem_map.mp hx1
    have h1 := hlt t ht
    have h2 := (List.mem_range'_1.mp hx2).1
    omega

/-- Distinct ids are preserved by the stitch branch: it only drops retired
tracks. -/
theorem nodup_stitchBranch {p : List Track} {f : Nat} {img : Image}
    {mask : Option Image} {aIdx exIdx : List Nat} {ms : List (Nat × Nat)}
    (hnd : (trackIds p).Nodup) :
    (trackIds (stitchBranch none f img mask p aIdx exIdx ms).2).Nodup := by
  have hg := mergeFold_grows (p := p) (stitchPairs p aIdx exIdx ms) ⟨p, [], 0⟩
    (heapGrows_refl p)
  have h2 := trackIds_eq_of_heapGrows hg
  have hsub : (trackIds (stitchBranch none f img mask p aIdx exIdx ms).2).Sublist
      (trackIds (mergeTracks p (stitchPairs p aIdx exIdx ms)).heap) :=
    (List.filter_sublist _).map _
  exact List.Nodup.sublist hsub (h2 ▸ hnd)

/-- Preservation of id distinctness by one successful call (no closer). -/
theorem nodup_of_trackCall_ok {det : Image → Option Image → List Nat}
    {ext : Image → List Nat → Option Image → List Nat}
    {mat : List Nat → List Nat → List Nat → List Nat → Option (List (Nat × Nat))}
    {p? : Option (List Track)} {f : Nat} {img : Image} {mask : Option Image}
    {pa : Option (List Track)} {r : List Track}
    (h : trackCall ⟨some det, some ext, some mat, none⟩ p? f img mask = .ok (pa, r))
    (hinv : ∀ ts, p? = some ts → (trackIds ts).Nodup) :
    (trackIds r).Nodup := by
  rcases hm : maskMismatch img mask with _ | _
  · rcases p? with _ | p
    · rw [trackCall] at h
      rw [hm] at h
      simp only [Bool.false_eq_true, if_false, Except.ok.injEq, Prod.mk.injEq] at h
      rw [← h.2]
      show (trackIds (firstFrameTracks f (currObs det ext none f img mask).1
        (currObs det ext none f img mask).2 0)).Nodup
      rw [firstFrameTracks_map_id]
      exact List.nodup_range' _ _
    · have hnd := hinv p rfl
      rcases hn : nextTrackId? p with _ | nid
      · rw [trackCall] at h
        rw [hm] at h
        simp only [Bool.false_eq_true, if_false] at h
        rw [trackWithPrev, hn] at h
        exact absurd h (by simp)
      · rcases hmat : mat (frameFeatures p (anchorFrame p f))
            (frameDescriptors p (anchorFrame p f))
            (currObs det ext (some p) f img mask).1
            (currObs det ext (some p) f img mask).2 with _ | ms
        · rw [trackCall] at h
          rw [hm] at h
          simp only [Bool.false_eq_true, if_false] at h
          rw [trackWithPrev, hn] at h
          dsimp only at h
          rw [hmat] at h
          simp only [Except.ok.injEq, Prod.mk.injEq] at h
          rw [← h.2]
          exact hnd
        · by_cases hex : activeIndices p f = []
          · rw [trackCall_extend_eq det ext mat none p f img mask nid ms hm hn hmat hex] at h
            simp only [Except.ok.injEq, Prod.mk.injEq] at h
            rw [← h.2]
            exact nodup_extendBranch hnd (nextTrackId_lt hn)
          · rw [trackCall_stitch_eq det ext mat none p f img mask nid ms hm hn hmat hex] at h
            simp only [Except.ok.injEq, Prod.mk.injEq] at h
            rw [← h.2]
            exact nodup_stitchBranch hnd
  · rw [trackCall] at h
    rw [hm] at h
    simp at h

/-- C5 (amended): along every session of `track` calls starting from no
prior state (no loop closer), all track ids of every produced track set
are pairwise distinct.  (The non-reallocation part of the claim fails —
see the counterexample.) -/
theorem c5_unique_ids (det : Image → Option Image → List Nat)
    (ext : Image → List Nat → Option Image → List Nat)
    (mat : List Nat → List Nat → List Nat → List Nat → Option (List (Nat × Nat)))
    (cs : List (Nat × Image × Option Image)) (ts : List Track)
    (h : runCalls ⟨some det, some ext, some mat, none⟩ cs = some ts) :
    (trackIds ts).Nodup := by
  suffices hs : ∀ (cs2 : List (Nat × Image × Option Image)) (st : Option (List Track)),
      (∀ u, st = some u → (trackIds u).Nodup) →
      ∀ v, cs2.foldl (runStep ⟨some det, some ext, some mat, none⟩) st = some v →
        (trackIds v).Nodup by
    exact hs cs none (fun u hu => by cases hu) ts h
  intro cs2
  induction cs2 with
  | nil => exact fun st hst v hv => hst v hv
  | cons c rest ih =>
    intro st hst v hv
    refine ih (runStep ⟨some det, some ext, some mat, none⟩ st c) (fun u hu => ?_) v hv
    unfold runStep at hu
    rcases hc : trackCall ⟨some det, some ext, some mat, none⟩ st c.1 c.2.1 c.2.2 with e | pr
    · rw [hc] at hu
      exact hst u hu
    · rw [hc] at hu
      simp only [Option.some.injEq] at hu
      exact hu ▸ nodup_of_trackCall_ok hc hst

/-- C5 (counterexample): after frames 0, 3, 5 the set holds ids 0 and 1;
re-tracking frame 3 merges track 1 away (its id is retired); the next call
(frame 7) allocates max + 1 = 1 again for a brand-new track — a retired id
is reallocated. -/
theorem c5_counterexample :
    runCalls ⟨some detA, some extA, some matOn13, none⟩ (calls5.take 3) =
      some [⟨0, [⟨0, 10, 20⟩, ⟨3, 13, 23⟩]⟩, ⟨1, [⟨5, 15, 25⟩]⟩] ∧
    runCalls ⟨some detA, some extA, some matOn13, none⟩ (calls5.take 4) =
      some [⟨0, [⟨0, 10, 20⟩, ⟨3, 13, 23⟩, ⟨5, 15, 25⟩]⟩] ∧
    runCalls ⟨some detA, some extA, some matOn13, none⟩ calls5 =
      some [⟨0, [⟨0, 10, 20⟩, ⟨3, 13, 23⟩, ⟨5, 15, 25⟩]⟩, ⟨1, [⟨7, 17, 27⟩]⟩] :=
  ⟨rfl, rfl, rfl⟩

/-- Witness for C5 (amended) on a one-call session. -/
theorem c5_unique_ids_witness :
    (trackIds [⟨0, [⟨0, 10, 20⟩]⟩]).Nodup :=
  c5_unique_ids detA extA matOn13 (calls5.take 1) [⟨0, [⟨0, 10, 20⟩]⟩] rfl

/-- Characterization of the extend-mode loop when no anchor track is
matched twice: every match's append-or-insert succeeds (the anchor track
had no state at the frame yet), so exactly the matched current indices are
consumed, and every matched anchor track ends up with a state at the
current frame. -/
theorem extendFold_spec (f : Nat) (vf df aIdx : List Nat) (hnda : aIdx.Nodup) :
    ∀ (ms : List (Nat × Nat)) (acc : ExtendAcc),
      (∀ m ∈ ms, m.1 < aIdx.length ∧ m.2 < vf.length ∧ m.2 < df.length) →
      (∀ m ∈ ms, ∀ k, aIdx[m.1]? = some k →
        ∃ t, acc.heap[k]? = some t ∧ t.hasFrame f = false) →
      (ms.map Prod.fst).Nodup →
      (∀ j, j ∈ (ms.foldl (extendStep f vf df aIdx) acc).matched ↔
        j ∈ acc.matched ∨ ∃ m ∈ ms, m.2 = j) ∧
      (∀ m ∈ ms, ∀ k, aIdx[m.1]? = some k →
        ∃ t, (ms.foldl (extendStep f vf df aIdx) acc).heap[k]? = some t ∧
          t.hasFrame f = true) := by
  intro ms
  induction ms with
  | nil =>
    intro acc hvalid hfresh hnd
    refine ⟨fun j => by simp, fun m hm => absurd hm (List.not_mem_nil m)⟩
  | cons m rest ih =>
    intro acc hvalid hfresh hnd
    obtain ⟨h1, h2, h3⟩ := hvalid m (List.mem_cons_self m rest)
    have hk : aIdx[m.1]? = some aIdx[m.1] := List.getElem?_eq_getElem h1
    obtain ⟨t, hht, hframe⟩ := hfresh m (List.mem_cons_self m rest) aIdx[m.1] hk
    obtain ⟨t2, hop⟩ :=
      appendOrInsert_succeeds (t := t) (s := ⟨f, vf[m.2], df[m.2]⟩) hframe
    have hstep : extendStep f vf df aIdx acc m =
        ⟨acc.heap.set aIdx[m.1] t2, m.2 :: acc.matched⟩ := by
      unfold extendStep
      rw [hk, List.getElem?_eq_getElem h2, List.getElem?_eq_getElem h3]
      dsimp only
      rw [hht]
      dsimp only
      rw [hop]
    have hndtail : (rest.map Prod.fst).Nodup := by
      rw [List.map_cons] at hnd
      exact hnd.of_cons
    have hheadnotin : m.1 ∉ rest.map Prod.fst := by
      rw [List.map_cons] at hnd
      exact (List.nodup_cons.mp hnd).1
    have hfresh2 : ∀ m' ∈ rest, ∀ k', aIdx[m'.1]? = some k' →
        ∃ t', (acc.heap.set aIdx[m.1] t2)[k']? = some t' ∧ t'.hasFrame f = false := by
      intro m' hm' k' hk'
      obtain ⟨t', ht', hf'⟩ := hfresh m' (List.mem_cons_of_mem m hm') k' hk'
      have hne : m'.1 ≠ m.1 := by
        intro he
        exact hheadnotin (he ▸ List.mem_map_of_mem Prod.fst hm')
      have hm'lt : m'.1 < aIdx.length := (hvalid m' (List.mem_cons_of_mem m hm')).1
      have hkne : aIdx[m.1] ≠ k' := by
        intro he
        exact hne (List.getElem?_inj hm'lt hnda (by rw [hk', hk, he]))
      refine ⟨t', ?_, hf'⟩
      rw [List.getElem?_set_ne hkne]
      exact ht'
    rw [List.foldl_cons, hstep]
    obtain ⟨ihm, ihh⟩ := ih ⟨acc.heap.set aIdx[m.1] t2, m.2 :: acc.matched⟩
      (fun m' hm' => hvalid m' (List.mem_cons_of_mem m hm')) hfresh2 hndtail
    constructor
    · intro j
      rw [ihm j]
      simp only [List.mem_cons]
      constructor
      · rintro ((rfl | hj) | ⟨m', hm', he⟩)
        · exact Or.inr ⟨m, Or.inl rfl, rfl⟩
        · exact Or.inl hj
        · exact Or.inr ⟨m', Or.inr hm', he⟩
      · rintro (hj | ⟨m', (rfl | hm'), he⟩)
        · exact Or.inl (Or.inr hj)
        · exact Or.inl (Or.inl he.symm)
        · exact Or.inr ⟨m', hm', he⟩
    · intro m' hm' k' hk'
      rcases List.mem_cons.mp hm' with rfl | hm2
      · have hkk : k' = aIdx[m'.1] := by
          rw [hk] at hk'
          exact (Option.some_inj.mp hk').symm
        subst hkk
        have hset : (acc.heap.set aIdx[m'.1] t2)[aIdx[m'.1]]? = some t2 := by
          rw [List.getElem?_set_self', hht]
          rfl
        have hg := @extendFold_grows (acc.heap.set aIdx[m'.1] t2) f vf df aIdx rest
          ⟨acc.heap.set aIdx[m'.1] t2, m'.2 :: acc.matched⟩ (heapGrows_refl _)
        have hklt : aIdx[m'.1] < (acc.heap.set aIdx[m'.1] t2).length :=
          (List.getElem?_eq_some.mp hset).1
        rcases hres : (rest.foldl (extendStep f vf df aIdx)
            ⟨acc.heap.set aIdx[m'.1] t2, m'.2 :: acc.matched⟩).heap[aIdx[m'.1]]? with _ | t3
        · rw [List.getElem?_eq_none_iff] at hres
          have := hg.len
          omega
        · obtain ⟨hid, hsub⟩ := hg.pt aIdx[m'.1] t2 t3 hset hres
          refine ⟨t3, rfl, ?_⟩
          have h4 := appendOrInsert_hasFrame hop
          unfold Track.hasFrame at h4 ⊢
          rw [List.any_eq_true] at h4 ⊢
          obtain ⟨s, hs, hsf⟩ := h4
          exact ⟨s, hsub.mem hs, hsf⟩
      · exact ihh m' hm2 k' hk'

/-- C1 (counterexample): with one anchor track and matches (0,0) and (0,1),
the second match's append and insert both fail (the track already gained a
state at frame 1 from the first match), so current index 1 is *not*
recorded as consumed although it is matched — a singleton track (id 1) is
created for it.  Under the claim, index 1 would be consumed regardless and
no singleton would exist. -/
theorem c1_counterexample :
    trackCall ⟨some detB, some extB, some matDup, none⟩ (some pB) 1 (imgAt 1) none =
      .ok (some [⟨0, [⟨0, 100, 150⟩, ⟨1, 101, 151⟩]⟩],
           [⟨0, [⟨0, 100, 150⟩, ⟨1, 101, 151⟩]⟩, ⟨1, [⟨1, 102, 152⟩]⟩]) ∧
    matDup [100] [150] [101, 102] [151, 152] = some [(0, 0), (0, 1)] :=
  ⟨rfl, rfl⟩

/-- C1 (amended): in extend mode a current-frame index is consumed exactly
when its append-or-insert succeeded; when no two matches name the same
anchor track (the only way append and insert can both fail in extend
mode), every match succeeds, so the consumed indices are exactly the
matched current indices, singleton tracks are created exactly for the
unmatched indices, and every matched anchor track carries a state at the
current frame afterwards. -/
theorem c1_extend_consumption (det : Image → Option Image → List Nat)
    (ext : Image → List Nat → Option Image → List Nat)
    (mat : List Nat → List Nat → List Nat → List Nat → Option (List (Nat × Nat)))
    (p : List Track) (f : Nat) (img : Image) (mask : Option Image)
    (nid : Nat) (ms : List (Nat × Nat)) (vf df aIdx : List Nat)
    (hm : maskMismatch img mask = false)
    (hn : nextTrackId? p = some nid)
    (hvf : (currObs det ext (some p) f img mask).1 = vf)
    (hdf : (currObs det ext (some p) f img mask).2 = df)
    (haIdx : activeIndices p (anchorFrame p f) = aIdx)
    (hmat : mat (frameFeatures p (anchorFrame p f)) (frameDescriptors p (anchorFrame p f))
        (currObs det ext (some p) f img mask).1 (currObs det ext (some p) f img mask).2 = some ms)
    (hex : activeIndices p f = [])
    (hvalid : ∀ m ∈ ms, m.1 < aIdx.length ∧ m.2 < vf.length ∧ m.2 < df.length)
    (hanchors : (ms.map Prod.fst).Nodup) :
    ∃ heap', trackCall ⟨some det, some ext, some mat, none⟩ (some p) f img mask =
        .ok (some heap', heap' ++ newTracksFrom f vf df nid
          ((List.range vf.length).filter (fun i => decide (¬∃ m ∈ ms, m.2 = i)))) ∧
      ∀ m ∈ ms, ∀ k, aIdx[m.1]? = some k →
        ∃ t, heap'[k]? = some t ∧ t.hasFrame f = true := by
  subst hvf hdf haIdx
  have hnda : (activeIndices p (anchorFrame p f)).Nodup :=
    (List.nodup_range p.length).filter _
  have hfr : ∀ t ∈ p, t.hasFrame f = false := activeIndices_nil_iff.mp hex
  have hfresh : ∀ m ∈ ms, ∀ k, (activeIndices p (anchorFrame p f))[m.1]? = some k →
      ∃ t, p[k]? = some t ∧ t.hasFrame f = false := by
    intro m hm' k hk
    have hkmem : k ∈ activeIndices p (anchorFrame p f) :=
      List.mem_iff_getElem?.mpr ⟨m.1, hk⟩
    have hklt : k < p.length := List.mem_range.mp (List.mem_of_mem_filter hkmem)
    rcases hp : p[k]? with _ | t
    · rw [List.getElem?_eq_none_iff] at hp
      omega
    · exact ⟨t, rfl, hfr t (List.mem_iff_getElem?.mpr ⟨k, hp⟩)⟩
  obtain ⟨hmatched, hafter⟩ := extendFold_spec f
    (currObs det ext (some p) f img mask).1 (currObs det ext (some p) f img mask).2
    (activeIndices p (anchorFrame p f)) hnda ms ⟨p, []⟩ hvalid hfresh hanchors
  refine ⟨(ms.foldl (extendStep f (currObs det ext (some p) f img mask).1
      (currObs det ext (some p) f img mask).2
      (activeIndices p (anchorFrame p f))) ⟨p, []⟩).heap, ?_, hafter⟩
  rw [trackCall_extend_eq det ext mat none p f img mask nid ms hm hn hmat hex]
  have hfilter : (List.range (currObs det ext (some p) f img mask).1.length).filter
        (fun i => !((ms.foldl (extendStep f (currObs det ext (some p) f img mask).1
          (currObs det ext (some p) f img mask).2
          (activeIndices p (anchorFrame p f))) ⟨p, []⟩).matched.contains i)) =
      (List.range (currObs det ext (some p) f img mask).1.length).filter
        (fun i => decide (¬∃ m ∈ ms, m.2 = i)) := by
    apply List.filter_congr
    intro i _
    have hiff : (ms.foldl (extendStep f (currObs det ext (some p) f img mask).1
        (currObs det ext (some p) f img mask).2
        (activeIndices p (anchorFrame p f))) ⟨p, []⟩).matched.contains i = true ↔
        ∃ m ∈ ms, m.2 = i := by
      rw [List.elem_iff, hmatched i]
      simp
    by_cases hcase : ∃ m ∈ ms, m.2 = i
    · rw [hiff.mpr hcase]
      simp [hcase]
    · have hcf : (ms.foldl (extendStep f (currObs det ext (some p) f img mask).1
          (currObs det ext (some p) f img mask).2
          (activeIndices p (anchorFrame p f))) ⟨p, []⟩).matched.contains i = false := by
        rcases hc : (ms.foldl (extendStep f (currObs det ext (some p) f img mask).1
            (currObs det ext (some p) f img mask).2
            (activeIndices p (anchorFrame p f))) ⟨p, []⟩).matched.contains i with _ | _
        · rfl
        · exact absurd (hiff.mp hc) hcase
      rw [hcf]
      simp [hcase]
  show Except.ok (some (ms.foldl (extendStep f (currObs det ext (some p) f img mask).1
      (currObs det ext (some p) f img mask).2
      (activeIndices p (anchorFrame p f))) ⟨p, []⟩).heap,
    (ms.foldl (extendStep f (currObs det ext (some p) f img mask).1
      (currObs det ext (some p) f img mask).2
      (activeIndices p (anchorFrame p f))) ⟨p, []⟩).heap ++
      newTracksFrom f (currObs det ext (some p) f img mask).1
        (currObs det ext (some p) f img mask).2 nid
        ((List.range (currObs det ext (some p) f img mask).1.length).filter
          (fun i => !((ms.foldl (extendStep f (currObs det ext (some p) f img mask).1
            (currObs det ext (some p) f img mask).2
            (activeIndices p (anchorFrame p f))) ⟨p, []⟩).matched.contains i)))) =
    Except.ok (some (ms.foldl (extendStep f (currObs det ext (some p) f img mask).1
      (currObs det ext (some p) f img mask).2
      (activeIndices p (anchorFrame p f))) ⟨p, []⟩).heap,
    (ms.foldl (extendStep f (currObs det ext (some p) f img mask).1
      (currObs det ext (some p) f img mask).2
      (activeIndices p (anchorFrame p f))) ⟨p, []⟩).heap ++
      newTracksFrom f (currObs det ext (some p) f img mask).1
        (currObs det ext (some p) f img mask).2 nid
        ((List.range (currObs det ext (some p) f img mask).1.length).filter
          (fun i => decide (¬∃ m ∈ ms, m.2 = i))))
  rw [hfilter]

/-- Witness for C1 (amended): one anchor track, one match. -/
theorem c1_extend_consumption_witness :
    ∃ heap', trackCall ⟨some detB, some extB, some matPair, none⟩ (some pB) 1
        (imgAt 1) none =
      .ok (some heap', heap' ++ newTracksFrom 1 [101, 102] [151, 152] 1
        ((List.range 2).filter (fun i => decide (¬∃ m ∈ [((0 : Nat), (0 : Nat))], m.2 = i)))) ∧
      ∀ m ∈ [((0 : Nat), (0 : Nat))], ∀ k, ([0] : List Nat)[m.1]? = some k →
        ∃ t, heap'[k]? = some t ∧ t.hasFrame 1 = true :=
  c1_extend_consumption detB extB matPair pB 1 (imgAt 1) none 1
    [(0, 0)] [101, 102] [151, 152] [0] rfl rfl rfl rfl rfl rfl rfl
    (by decide) (by decide)

end TrackFeaturesCore
